import Mathlib

/-!
Verification development for the Aggregator (Burst miner proxy).
The definitions below are a shallow embedding of the Go source:
the submission admission engine (`tryUpdateRound`), the upstream
submitter (`proxySubmitRound`), the mining-info refresher's chain
transition blocks (`refreshPrimary`, `refreshSecondary`), the
pull-upstream query construction, and the `FlexUInt64` JSON decoder.
Machine `uint64` values are modelled as `Nat` (the only arithmetic is
division and comparison, which cannot overflow); Go maps are modelled
as association lists; the fallible upstream HTTP call is modelled by
an explicit `Upstream` oracle per call.
-/

namespace Aggregator

/-- Maximum unsigned 64-bit value, `^uint64(0)` in the source. -/
def maxU64 : Nat := 2 ^ 64 - 1

/-- Outcome code `exceededMinersPerIP = 0` from the source constants. -/
def exceededMinersPerIP : Nat := 0

/-- Outcome code `notUpdated = 1`. -/
def notUpdated : Nat := 1

/-- Outcome code `updated = 2`. -/
def updated : Nat := 2

/-- Outcome code `remoteErr = 3`. -/
def remoteErr : Nat := 3

/-- Outcome code `wrongHeight = 4`. -/
def wrongHeight : Nat := 4

/-- One pending submission (`minerRound` struct in the source). -/
structure MinerRound where
  accountID : Nat
  height : Nat
  deadline : Nat
  nonce : Nat
  passphrase : String
  adjusted : Bool
deriving DecidableEq, Repr

/-- A snapshot of an upstream's round (`miningInfo` struct; the
pre-serialized bytes and wall-clock start time are not modelled). -/
structure MiningInfo where
  height : Nat
  baseTarget : Nat
  targetDeadline : Nat
  genSig : String
deriving DecidableEq, Repr

/-- An IP bucket: the `accountIDtoRound` map, as an association list
from account id to stored round. -/
abbrev Bucket := List (Nat × MinerRound)

/-- A per-chain cache (`primc` / `secc`): ip to bucket. -/
abbrev Cache := List (String × Bucket)

/-- Lookup in a bucket by account id (Go map read). -/
def bucketLookup : Bucket → Nat → Option MinerRound
  | [], _ => none
  | e :: rest, k => if e.1 = k then some e.2 else bucketLookup rest k

/-- Store in a bucket under an account id (Go map write): replace the
existing entry in place, else append. -/
def bucketInsert : Bucket → Nat → MinerRound → Bucket
  | [], k, r => [(k, r)]
  | e :: rest, k, r => if e.1 = k then (k, r) :: rest else e :: bucketInsert rest k r

/-- Remove a bucket entry by account id (Go `delete`). -/
def bucketErase : Bucket → Nat → Bucket
  | [], _ => []
  | e :: rest, k => if e.1 = k then rest else e :: bucketErase rest k

/-- Lookup an ip's bucket in a cache (`cache.Get`). -/
def cacheLookup : Cache → String → Option Bucket
  | [], _ => none
  | e :: rest, ip => if e.1 = ip then some e.2 else cacheLookup rest ip

/-- Store an ip's bucket in a cache (`cache.SetDefault`). -/
def cacheSet : Cache → String → Bucket → Cache
  | [], ip, b => [(ip, b)]
  | e :: rest, ip, b => if e.1 = ip then (ip, b) :: rest else e :: cacheSet rest ip b

/-- Static configuration relevant to the submission path. -/
structure Config where
  primaryws : Bool
  secondaryws : Bool
  primaryPassphrase : String
  secondaryPassphrase : String
  primTDL : Nat
  secTDL : Nat
  primaryIgnoreWorseDeadlines : Bool
  secondaryIgnoreWorseDeadlines : Bool
  minersPerIP : Nat
  lieDetector : Bool
deriving Repr

/-- The process-wide mutable state: chain scalars, best-deadline
counters, published mining infos, per-chain submission caches and the
liars cache (modelled as the list of marked ips). -/
structure ChainState where
  currentPrimChain : Bool
  currentHeight : Nat
  currentBaseTarget : Nat
  lastPrimChain : Bool
  lastHeight : Nat
  lastBaseTarget : Nat
  primBest : Nat
  secBest : Nat
  curPrimaryMiningInfo : Option MiningInfo
  curSecondaryMiningInfo : Option MiningInfo
  primc : Cache
  secc : Cache
  liars : List String
deriving Repr

/-- JSON values, for the bodies the proxy writes to the miner. -/
inductive JVal where
  | str : String → JVal
  | num : Nat → JVal
  | obj : List (String × JVal) → JVal
deriving Repr

/-- Field lookup in a JSON object's field list. -/
def lookupField : List (String × JVal) → String → Option JVal
  | [], _ => none
  | f :: rest, k => if f.1 = k then some f.2 else lookupField rest k

/-- Bodies written to the miner's response writer: structural JSON for
locally formatted bodies, raw text for a verbatim upstream body. -/
inductive HTTPOut where
  | json : JVal → HTTPOut
  | raw : String → HTTPOut
deriving Repr

/-- Oracle for one upstream HTTP round-trip: `fail` models a transport
error from `client.Do`; `ok body parsed` models a success whose body is
`body` and whose lie-detector parse of the `deadline` field gives
`parsed` (none when unmarshalling fails). -/
inductive Upstream where
  | fail : Upstream
  | ok : String → Option Nat → Upstream
deriving Repr

/-- The error envelope `formatJSONError` builds: `json.Marshal` of a
two-entry string map, keys in marshalled (sorted) order. -/
def formatJSONError (errorCode : Nat) (errorMsg : String) : JVal :=
  .obj [("errorCode", .str (toString errorCode)), ("errorDescription", .str errorMsg)]

/-- Chain binding in `tryUpdateRound` (source lines: `if round.Height ==
currentHeight` then the current chain flag, else the last one). -/
def bindPrimChain (st : ChainState) (h : Nat) : Bool :=
  if h = st.currentHeight then st.currentPrimChain else st.lastPrimChain

/-- Base-target binding in `tryUpdateRound`: the current base target for
the current height, the last one otherwise. -/
def bindBaseTarget (st : ChainState) (h : Nat) : Nat :=
  if h = st.currentHeight then st.currentBaseTarget else st.lastBaseTarget

/-- Base target selected in the push (websocket) branch of
`proxySubmitRound`: starts from the current one and switches to the last
one when the round's height differs from the current height. -/
def pushFakeBaseTarget (st : ChainState) (h : Nat) : Nat :=
  if h ≠ st.currentHeight then st.lastBaseTarget else st.currentBaseTarget

/-- Base target selected by `requestHandler` for the `notUpdated`
response body, same selection as the push branch. -/
def notUpdatedBaseTarget (st : ChainState) (h : Nat) : Nat :=
  if h ≠ st.currentHeight then st.lastBaseTarget else st.currentBaseTarget

/-- Adjusted deadline of a round against a base target: the raw deadline
when the round is already adjusted, the quotient otherwise. -/
def adjDeadline (r : MinerRound) (bt : Nat) : Nat :=
  if r.adjusted then r.deadline else r.deadline / bt

/-- Deadline in the `notUpdated` response body built by `requestHandler`. -/
def notUpdatedDeadline (st : ChainState) (r : MinerRound) : Nat :=
  adjDeadline r (notUpdatedBaseTarget st r.height)

/-- Passphrase overwrite at the top of the pull branch of
`proxySubmitRound`: a non-empty configured passphrase for the selected
chain replaces the round's passphrase. -/
def overwritePassphrase (cfg : Config) (primary : Bool) (r : MinerRound) : MinerRound :=
  let r1 := if primary ∧ cfg.primaryPassphrase ≠ "" then
    { r with passphrase := cfg.primaryPassphrase } else r
  if ¬primary ∧ cfg.secondaryPassphrase ≠ "" then
    { r1 with passphrase := cfg.secondaryPassphrase } else r1

/-- Query values produced by `query.Values` on a `minerRound`: the five
url-tagged fields plus the untagged `Adjusted` field. -/
def queryValues (r : MinerRound) : List (String × String) :=
  [("accountId", toString r.accountID),
   ("blockheight", toString r.height),
   ("deadline", toString r.deadline),
   ("nonce", toString r.nonce),
   ("secretPhrase", r.passphrase),
   ("Adjusted", if r.adjusted then "true" else "false")]

/-- Parameter removal, `url.Values.Del`. -/
def valuesDel (v : List (String × String)) (k : String) : List (String × String) :=
  v.filter (fun p => p.1 ≠ k)

/-- Whether the encoded query carries a parameter named `k`. -/
def hasParam (v : List (String × String)) (k : String) : Bool :=
  v.any (fun p => p.1 = k)

/-- The query parameter list a pull submission sends upstream: the
passphrase overwrite, the adjusted-deadline removal, the pool/wallet
removal, and the drop of the synthetic `Adjusted` field, in source
order. -/
def submitQuery (cfg : Config) (primary : Bool) (r0 : MinerRound) : List (String × String) :=
  let r := overwritePassphrase cfg primary r0
  let v := queryValues r
  let v := if r.adjusted then valuesDel v "deadline" else v
  let v := if r.passphrase = "" then valuesDel v "secretPhrase" else valuesDel v "deadline"
  valuesDel v "Adjusted"

/-- Result of one `proxySubmitRound` call: whether `client.Do` failed,
the bodies written to the miner, the round object after the in-place
passphrase overwrite, and whether the lie detector flagged the ip. -/
structure ProxyResult where
  err : Bool
  written : List HTTPOut
  round : MinerRound
  liarDetected : Bool
deriving Repr

/-- Shallow embedding of `proxySubmitRound`. The websocket push branch
fires and writes a synthetic success body computed against
`pushFakeBaseTarget` and never fails; the pull branch overwrites the
passphrase, performs the upstream POST (the `up` oracle), writes the
code-3 error envelope on transport failure, and otherwise runs the lie
detector and writes the upstream body verbatim. -/
def proxySubmitRound (cfg : Config) (st : ChainState) (up : Upstream)
    (round : MinerRound) (primary : Bool) (baseTarget : Nat) : ProxyResult :=
  if (primary ∧ cfg.primaryws) ∨ (¬primary ∧ cfg.secondaryws) then
    let fakeDeadline := adjDeadline round (pushFakeBaseTarget st round.height)
    { err := false,
      written := [.json (.obj [("deadline", .num fakeDeadline), ("result", .str "success")])],
      round := round, liarDetected := false }
  else
    let round := overwritePassphrase cfg primary round
    match up with
    | .fail =>
      { err := true,
        written := [.json (formatJSONError 3 "error reaching pool or wallet")],
        round := round, liarDetected := false }
    | .ok body parsed =>
      let localDeadline := adjDeadline round baseTarget
      let liar := cfg.lieDetector && (match parsed with
        | some md => decide (md ≠ localDeadline)
        | none => false)
      { err := false, written := [.raw body], round := round,
        liarDetected := liar }

/-- Result of one `tryUpdateRound` call: the outcome code, the state
after the call, and the bodies written inside the call. -/
structure UpdateResult where
  res : Nat
  st : ChainState
  written : List HTTPOut
deriving Repr

/-- Writes a bucket back into the chain-selected cache (the Go code
mutates the shared map in place; the association-list model re-stores). -/
def writeBucket (st : ChainState) (primChain : Bool) (ip : String) (b : Bucket) : ChainState :=
  if primChain then { st with primc := cacheSet st.primc ip b }
  else { st with secc := cacheSet st.secc ip b }

/-- The `update:` label of `tryUpdateRound` (source lines 232-243):
forward upstream, and on success store the round under its account id,
set the chain's best counter to the adjusted deadline, and record a
liar mark when the lie detector fired. On failure return `remoteErr`;
the bucket passed in (which may already have had an entry evicted) is
still written back, as the Go code mutated the shared map in place. -/
def doUpdate (cfg : Config) (st : ChainState) (up : Upstream) (ip : String)
    (round : MinerRound) (primChain : Bool) (baseTarget deadline : Nat)
    (b : Bucket) : UpdateResult :=
  let pr := proxySubmitRound cfg st up round primChain baseTarget
  if pr.err then
    { res := remoteErr, st := writeBucket st primChain ip b, written := pr.written }
  else
    let b1 := bucketInsert b round.accountID pr.round
    let st1 := writeBucket st primChain ip b1
    let st2 := if primChain then { st1 with primBest := deadline }
      else { st1 with secBest := deadline }
    let st3 := if pr.liarDetected then { st2 with liars := ip :: st2.liars } else st2
    { res := updated, st := st3, written := pr.written }

/-- Shallow embedding of `tryUpdateRound` (source lines 126-244): the
two height checks, the liar gate, the chain binding, the deadline
adjustment, the ceiling and best-only filters, the bucket paths, and
the forwarding step. -/
def tryUpdateRound (cfg : Config) (st : ChainState) (up : Upstream)
    (ip : String) (round : MinerRound) : UpdateResult :=
  if round.height ≠ st.currentHeight ∧ st.currentPrimChain = st.lastPrimChain then
    { res := wrongHeight, st := st, written := [] }
  else if round.height ≠ st.currentHeight ∧ round.height ≠ st.lastHeight then
    { res := wrongHeight, st := st, written := [] }
  else if ip ∈ st.liars then
    { res := notUpdated, st := st, written := [] }
  else
    let primChain := bindPrimChain st round.height
    let baseTarget := bindBaseTarget st round.height
    let deadline := adjDeadline round baseTarget
    if (primChain ∧ deadline > cfg.primTDL) ∨ (¬primChain ∧ deadline > cfg.secTDL) then
      { res := notUpdated, st := st, written := [] }
    else if (primChain ∧ deadline > st.primBest ∧ cfg.primaryIgnoreWorseDeadlines) ∨
        (¬primChain ∧ deadline > st.secBest ∧ cfg.secondaryIgnoreWorseDeadlines) then
      { res := notUpdated, st := st, written := [] }
    else
      match cacheLookup (if primChain then st.primc else st.secc) ip with
      | none =>
        let pr := proxySubmitRound cfg st up round primChain baseTarget
        if pr.err then
          { res := remoteErr, st := st, written := pr.written }
        else
          let st1 := writeBucket st primChain ip [(round.accountID, pr.round)]
          let st2 := if primChain then { st1 with primBest := deadline }
            else { st1 with secBest := deadline }
          let st3 := if pr.liarDetected then { st2 with liars := ip :: st2.liars } else st2
          { res := updated, st := st3, written := pr.written }
      | some b =>
        match bucketLookup b round.accountID with
        | none =>
          if b.length = cfg.minersPerIP then
            match b.find? (fun e => e.2.height < round.height) with
            | some other =>
              doUpdate cfg st up ip round primChain baseTarget deadline
                (bucketErase b other.2.accountID)
            | none => { res := exceededMinersPerIP, st := st, written := [] }
          else
            doUpdate cfg st up ip round primChain baseTarget deadline b
        | some existingRound =>
          let existingDeadline := adjDeadline existingRound baseTarget
          if existingRound.height > round.height ∨
              (existingRound.height = round.height ∧ existingDeadline < deadline) then
            { res := notUpdated, st := st, written := [] }
          else
            doUpdate cfg st up ip round primChain baseTarget deadline b

/-- One admission event: the upstream oracle for the call, the source
ip, and the submitted round. -/
abbrev Event := Upstream × String × MinerRound

/-- Folds a sequence of admissions through `tryUpdateRound`. -/
def runSeq (cfg : Config) (st : ChainState) : List Event → ChainState
  | [] => st
  | (up, ip, r) :: rest => runSeq cfg (tryUpdateRound cfg st up ip r).st rest

/-- Adjusted deadlines of the calls in a sequence that return `updated`,
each computed against the base target its call bound. -/
def admittedDeadlines (cfg : Config) (st : ChainState) : List Event → List Nat
  | [] => []
  | (up, ip, r) :: rest =>
    let u := tryUpdateRound cfg st up ip r
    let ds := admittedDeadlines cfg u.st rest
    if u.res = updated then adjDeadline r (bindBaseTarget st r.height) :: ds else ds

/-- The round stored for `(ip, accountID)` in the cache of the chain
selected by `pc`. -/
def storedRound (st : ChainState) (pc : Bool) (ip : String) (aID : Nat) : Option MinerRound :=
  match cacheLookup (if pc then st.primc else st.secc) ip with
  | none => none
  | some b => bucketLookup b aID

/-- Scalar copy into the `last*` mirror performed by the primary
transition branches when the outgoing chain was secondary. -/
def primChainRotate (st : ChainState) : ChainState :=
  if ¬st.currentPrimChain then
    { st with lastBaseTarget := st.currentBaseTarget,
              lastHeight := st.currentHeight, lastPrimChain := false }
  else st

/-- Scalar copy into the `last*` mirror performed by the secondary
transition branches when the outgoing chain was primary. -/
def secChainRotate (st : ChainState) : ChainState :=
  if st.currentPrimChain then
    { st with lastBaseTarget := st.currentBaseTarget,
              lastHeight := st.currentHeight, lastPrimChain := true }
  else st

/-- Shared tail of a mutating primary-chain branch of
`refreshMiningInfo`: publish `mi`, optionally flush `primc`, rotate the
scalars when the outgoing chain was secondary, install the new scalars
with `currentPrimChain = true`, reset `primBest` to max, and reschedule
a mid-scan secondary round with a zeroed mining info. -/
def primApply (mi : MiningInfo) (flush secMidScan : Bool) (st : ChainState) : ChainState :=
  let st := { st with curPrimaryMiningInfo := some mi }
  let st := if flush then { st with primc := [] } else st
  let st := primChainRotate st
  let st := { st with currentBaseTarget := mi.baseTarget, currentHeight := mi.height,
                      currentPrimChain := true, primBest := maxU64 }
  if secMidScan then { st with curSecondaryMiningInfo := some ⟨0, 0, 0, ""⟩ } else st

/-- The primary-chain transition switch of `refreshMiningInfo` (source
lines 436-517). `secMidScan` models the wall-clock test on the last
secondary start time. -/
def refreshPrimary (mi : MiningInfo) (secMidScan : Bool) (st : ChainState) : ChainState :=
  match st.curPrimaryMiningInfo with
  | none => primApply mi false secMidScan st
  | some cur =>
    if cur.height < mi.height then primApply mi false secMidScan st
    else if cur.height > mi.height then primApply mi true secMidScan st
    else if cur.baseTarget ≠ mi.baseTarget then primApply mi true secMidScan st
    else st

/-- New-block branch of the secondary-chain switch (source lines
559-580): publish `mi` as the current secondary mining info, rotate the
scalars when the outgoing chain was primary, install the new scalars
with `currentPrimChain = false`, reset `secBest` to max. No flush. -/
def secNewBlock (mi : MiningInfo) (st : ChainState) : ChainState :=
  let st := { st with curSecondaryMiningInfo := some mi }
  let st := secChainRotate st
  { st with currentBaseTarget := mi.baseTarget, currentHeight := mi.height,
            currentPrimChain := false, secBest := maxU64 }

/-- Fork-back branch of the secondary-chain switch (source lines
581-602): publish `mi`, flush `secc`, rotate the scalars when the
outgoing chain was primary, install the new scalars, reset `secBest` to
max. The source sets `currentPrimChain` to TRUE in this branch (line
600), unlike the two sibling branches which set it to false. -/
def secForkBack (mi : MiningInfo) (st : ChainState) : ChainState :=
  let st := { st with curSecondaryMiningInfo := some mi, secc := [] }
  let st := secChainRotate st
  { st with currentBaseTarget := mi.baseTarget, currentHeight := mi.height,
            currentPrimChain := true, secBest := maxU64 }

/-- Same-height base-target-change branch of the secondary-chain switch
(source lines 603-624): publish `mi`, flush `secc`, rotate, install the
new scalars with `currentPrimChain = false`, reset `secBest` to max. -/
def secBaseTargetFork (mi : MiningInfo) (st : ChainState) : ChainState :=
  let st := { st with curSecondaryMiningInfo := some mi, secc := [] }
  let st := secChainRotate st
  { st with currentBaseTarget := mi.baseTarget, currentHeight := mi.height,
            currentPrimChain := false, secBest := maxU64 }

/-- The secondary-chain transition switch of `refreshMiningInfo`
(source lines 558-626). -/
def refreshSecondary (mi : MiningInfo) (st : ChainState) : ChainState :=
  match st.curSecondaryMiningInfo with
  | none => secNewBlock mi st
  | some cur =>
    if cur.height < mi.height then secNewBlock mi st
    else if cur.height > mi.height then secForkBack mi st
    else if cur.baseTarget ≠ mi.baseTarget then secBaseTargetFork mi st
    else st

/-- The digit loop of `strconv.ParseUint`: left-to-right decimal
accumulation, failing on any non-digit character. -/
def digitsVal : List Char → Nat → Option Nat
  | [], acc => some acc
  | c :: rest, acc =>
    if c.isDigit then digitsVal rest (acc * 10 + (c.toNat - 48)) else none

/-- Decimal value of a character list, none when empty or any
character is not a digit. -/
def digitsToNat (l : List Char) : Option Nat :=
  match l with
  | [] => none
  | _ :: _ => digitsVal l 0

/-- Embedding of Go `strconv.Atoi` on a 64-bit platform: optional sign,
decimal digits, and a range check against the signed 64-bit `int`
bounds; `none` models a returned error (syntax or range). -/
def goAtoi (s : String) : Option Int :=
  match s.data with
  | [] => none
  | c :: rest =>
    let ds := if c = '-' ∨ c = '+' then rest else c :: rest
    match digitsToNat ds with
    | none => none
    | some n =>
      if c = '-' then
        if n ≤ 2 ^ 63 then some (-(n : Int)) else none
      else
        if n ≤ 2 ^ 63 - 1 then some (n : Int) else none

/-- The JSON-string arm of `FlexUInt64.UnmarshalJSON`: the quoted
string's content goes through `strconv.Atoi` into the `int`-backed
`FlexUInt64`; `none` models a returned error. -/
def flexUInt64UnmarshalString (s : String) : Option Int :=
  goAtoi s

/-- Minimum of a list of naturals (0 on the empty list). -/
def minList : List Nat → Nat
  | [] => 0
  | [x] => x
  | x :: y :: rest => min x (minList (y :: rest))

/-- Well-formedness of one bucket: distinct account-id keys, every
stored round's `accountID` field agrees with its key, and at most `m`
entries. -/
def bucketWF (m : Nat) (b : Bucket) : Prop :=
  (b.map Prod.fst).Nodup ∧ (∀ e ∈ b, e.2.accountID = e.1) ∧ b.length ≤ m

/-- Well-formedness of a cache: every bucket in it is well-formed. -/
def cacheWF (m : Nat) (c : Cache) : Prop := ∀ e ∈ c, bucketWF m e.2

/-- Well-formedness of the engine state: both per-chain caches hold
only well-formed buckets. -/
def stateWF (m : Nat) (st : ChainState) : Prop :=
  cacheWF m st.primc ∧ cacheWF m st.secc

/-- Whether the primary-chain switch of the refresher takes a mutating
branch on candidate `mi` (new block, fork back, or same-height
base-target change), i.e. is not the no-op fourth case. -/
def primMutating (mi : MiningInfo) (st : ChainState) : Bool :=
  match st.curPrimaryMiningInfo with
  | none => true
  | some cur => cur.height != mi.height || cur.baseTarget != mi.baseTarget

/-- Whether the secondary-chain switch takes a mutating branch. -/
def secMutating (mi : MiningInfo) (st : ChainState) : Bool :=
  match st.curSecondaryMiningInfo with
  | none => true
  | some cur => cur.height != mi.height || cur.baseTarget != mi.baseTarget

/-- Modelled from the spec: the response shape the spec writes as an
object whose `error` field is an object carrying `code`. Used only to
compare the spec's claimed body against the one the code builds. -/
def hasNestedErrorCode (o : HTTPOut) (code : Nat) : Prop :=
  ∃ fields inner, o = .json (.obj fields) ∧
    lookupField fields "error" = some (.obj inner) ∧
    lookupField inner "code" = some (.num code)

/-- Baseline pull-mode configuration for concrete runs: generous
ceilings, best-only filters off, two miners per ip, no passphrases. -/
def cfgP : Config :=
  { primaryws := false, secondaryws := false,
    primaryPassphrase := "", secondaryPassphrase := "",
    primTDL := 1000000000, secTDL := 1000000000,
    primaryIgnoreWorseDeadlines := false, secondaryIgnoreWorseDeadlines := false,
    minersPerIP := 2, lieDetector := false }

/-- `cfgP` with the best-only filters enabled on both chains. -/
def cfgIW : Config :=
  { cfgP with primaryIgnoreWorseDeadlines := true, secondaryIgnoreWorseDeadlines := true }

/-- `cfgP` restricted to one miner per ip. -/
def cfgM1 : Config := { cfgP with minersPerIP := 1 }

/-- Baseline state: primary chain current at height 10, last height 9,
both flags primary, base targets 1, empty caches. -/
def stBase : ChainState :=
  { currentPrimChain := true, currentHeight := 10, currentBaseTarget := 1,
    lastPrimChain := true, lastHeight := 9, lastBaseTarget := 1,
    primBest := maxU64, secBest := maxU64,
    curPrimaryMiningInfo := some ⟨10, 1, 0, "g"⟩,
    curSecondaryMiningInfo := none,
    primc := [], secc := [], liars := [] }

/-- `stBase` after a primary-to-secondary transition: the current chain
is secondary, the last one primary, with last height 9. -/
def stCross : ChainState := { stBase with currentPrimChain := false }

/-- Pre-adjusted submission: account 100, height 10, deadline 5. -/
def rA : MinerRound := ⟨100, 10, 5, 1, "", true⟩

/-- Pre-adjusted submission: account 200, height 10, deadline 7. -/
def rB : MinerRound := ⟨200, 10, 7, 2, "", true⟩

/-- Pre-adjusted submission: account 100, height 10, deadline 9. -/
def rC : MinerRound := ⟨100, 10, 9, 3, "", true⟩

/-- Pre-adjusted submission: account 100, height 10, deadline 4. -/
def rD : MinerRound := ⟨100, 10, 4, 4, "", true⟩

/-- Pre-adjusted submission for the last round: account 5, height 9. -/
def rLast : MinerRound := ⟨5, 9, 4, 1, "", true⟩

/-- Stale stored round: account 200 at the previous height 9. -/
def rOld : MinerRound := ⟨200, 9, 3, 1, "", true⟩

/-- The state after admitting `rA` from ip `a` on `stBase`. -/
def c2State1 : ChainState := (tryUpdateRound cfgP stBase (.ok "B" none) "a" rA).st

/-- State whose primary cache has a full (one-entry) bucket for ip `a`
holding the stale round `rOld`, under `cfgM1`. -/
def c8State : ChainState := { stBase with primc := [("a", [(200, rOld)])] }

/-- State on the secondary chain at height 5 with a stored secondary
submission, ready for a fork back to height 3. -/
def c1State : ChainState :=
  { currentPrimChain := false, currentHeight := 5, currentBaseTarget := 7,
    lastPrimChain := false, lastHeight := 4, lastBaseTarget := 7,
    primBest := 11, secBest := 22,
    curPrimaryMiningInfo := some ⟨9, 3, 0, ""⟩,
    curSecondaryMiningInfo := some ⟨5, 7, 0, ""⟩,
    primc := [], secc := [("a", [(1, ⟨1, 5, 3, 4, "", true⟩)])], liars := [] }

/-- Fork-back candidate mining info for the secondary chain: height 3,
same base target 7. -/
def c1Mi : MiningInfo := ⟨3, 7, 0, ""⟩

/-- Unadjusted submission carrying a miner passphrase (wallet mode). -/
def c7Round : MinerRound := ⟨1, 2, 3, 4, "x", false⟩

theorem cacheLookup_set_self (c : Cache) (ip : String) (b : Bucket) :
    cacheLookup (cacheSet c ip b) ip = some b := by
  induction c with
  | nil => simp [cacheSet, cacheLookup]
  | cons e rest ih =>
    by_cases h : e.1 = ip
    · simp [cacheSet, cacheLookup, h]
    · simp [cacheSet, cacheLookup, h, ih]

theorem cacheLookup_set_ne (c : Cache) (ip ip' : String) (b : Bucket) (h : ip' ≠ ip) :
    cacheLookup (cacheSet c ip b) ip' = cacheLookup c ip' := by
  have h' : ¬ip = ip' := fun he => h he.symm
  induction c with
  | nil => simp [cacheSet, cacheLookup, h']
  | cons e rest ih =>
    by_cases he : e.1 = ip
    · simp [cacheSet, cacheLookup, he, h']
    · simp [cacheSet, cacheLookup, he, ih]

theorem bucketLookup_insert_self (b : Bucket) (k : Nat) (r : MinerRound) :
    bucketLookup (bucketInsert b k r) k = some r := by
  induction b with
  | nil => simp [bucketInsert, bucketLookup]
  | cons e rest ih =>
    by_cases h : e.1 = k
    · simp [bucketInsert, bucketLookup, h]
    · simp [bucketInsert, bucketLookup, h, ih]

theorem bucketLookup_erase_of_none (b : Bucket) (k k' : Nat)
    (h : bucketLookup b k = none) : bucketLookup (bucketErase b k') k = none := by
  induction b with
  | nil => simp [bucketErase, bucketLookup]
  | cons e rest ih =>
    by_cases he : e.1 = k
    · simp [bucketLookup, he] at h
    · have h2 : bucketLookup rest k = none := by simpa [bucketLookup, he] using h
      by_cases he' : e.1 = k'
      · simpa [bucketErase, he'] using h2
      · simp [bucketErase, he', bucketLookup, he, ih h2]

theorem overwritePassphrase_fields (cfg : Config) (p : Bool) (r : MinerRound) :
    (overwritePassphrase cfg p r).accountID = r.accountID ∧
    (overwritePassphrase cfg p r).height = r.height ∧
    (overwritePassphrase cfg p r).deadline = r.deadline ∧
    (overwritePassphrase cfg p r).adjusted = r.adjusted := by
  unfold overwritePassphrase
  split <;> split <;> simp

theorem proxy_round_fields (cfg : Config) (st : ChainState) (up : Upstream)
    (r : MinerRound) (p : Bool) (bt : Nat) :
    (proxySubmitRound cfg st up r p bt).round.accountID = r.accountID ∧
    (proxySubmitRound cfg st up r p bt).round.height = r.height ∧
    (proxySubmitRound cfg st up r p bt).round.deadline = r.deadline ∧
    (proxySubmitRound cfg st up r p bt).round.adjusted = r.adjusted := by
  unfold proxySubmitRound
  split
  · simp
  · cases up <;> simp [overwritePassphrase_fields]

theorem proxy_adjDeadline (cfg : Config) (st : ChainState) (up : Upstream)
    (r : MinerRound) (p : Bool) (bt bt' : Nat) :
    adjDeadline (proxySubmitRound cfg st up r p bt).round bt' = adjDeadline r bt' := by
  obtain ⟨-, -, h3, h4⟩ := proxy_round_fields cfg st up r p bt
  simp [adjDeadline, h3, h4]

theorem proxy_err_written (cfg : Config) (st : ChainState) (up : Upstream)
    (r : MinerRound) (p : Bool) (bt : Nat)
    (h : (proxySubmitRound cfg st up r p bt).err = true) :
    (proxySubmitRound cfg st up r p bt).written =
      [.json (formatJSONError 3 "error reaching pool or wallet")] := by
  unfold proxySubmitRound at h ⊢
  split at h
  case isTrue hpush => simp at h
  case isFalse hpush =>
    rw [if_neg hpush]
    cases up
    · rfl
    · simp at h

/-- C1: on the fork-back transition of the secondary chain (current
secondary height 5, candidate height 3) the code flushes `secc` and
resets `secBest` to the maximum unsigned 64 value as the claim states,
but it sets the process-wide `currentPrimChain` flag to TRUE, not
false (source line 600), so the flag clause of the claim fails on this
branch while both sibling branches set it to false. -/
theorem refreshSecondary_forkBack_flag :
    (refreshSecondary c1Mi c1State).currentPrimChain = true ∧
    (refreshSecondary c1Mi c1State).secBest = maxU64 ∧
    (refreshSecondary c1Mi c1State).secc = [] ∧
    (secNewBlock c1Mi c1State).currentPrimChain = false ∧
    (secBaseTargetFork c1Mi c1State).currentPrimChain = false := by
  decide

/-- C9: the divisor of every deadline adjustment on the submission path
(the chain binding of tryUpdateRound, the selection in the push branch
of proxySubmitRound, and the selection behind requestHandler's
notUpdated body) is either currentBaseTarget or lastBaseTarget, so
when both are nonzero every such division is well-defined and no
division by zero occurs. -/
theorem submitPath_divisors_nonzero (st : ChainState) (h : Nat)
    (hc : st.currentBaseTarget ≠ 0) (hl : st.lastBaseTarget ≠ 0) :
    bindBaseTarget st h ≠ 0 ∧ pushFakeBaseTarget st h ≠ 0 ∧
    notUpdatedBaseTarget st h ≠ 0 := by
  unfold bindBaseTarget pushFakeBaseTarget notUpdatedBaseTarget
  refine ⟨?_, ?_, ?_⟩ <;> split <;> assumption

/-- Witness for C9 at the baseline state and height 3. -/
theorem submitPath_divisors_nonzero_witness :
    bindBaseTarget stBase 3 ≠ 0 ∧ pushFakeBaseTarget stBase 3 ≠ 0 ∧
    notUpdatedBaseTarget stBase 3 ≠ 0 :=
  submitPath_divisors_nonzero stBase 3 (by decide) (by decide)

/-- C10: the string arm of FlexUInt64's UnmarshalJSON goes through the
64-bit-int-backed strconv.Atoi, so every decimal string whose value
exceeds 2^63 - 1 is rejected with an error at the decoding boundary. -/
theorem flexUInt64_rejects_large (s : String) (n : Nat)
    (hd : digitsToNat s.data = some n) (hgt : 2 ^ 63 - 1 < n) :
    flexUInt64UnmarshalString s = none := by
  unfold flexUInt64UnmarshalString goAtoi
  rcases hsd : s.data with _ | ⟨c, rest⟩
  · rw [hsd] at hd
  · rw [hsd] at hd
    have hcdig : c.isDigit = true := by
      by_contra hcd
      simp [digitsToNat, digitsVal, hcd] at hd
    have hcm : ¬(c = '-' ∨ c = '+') := by
      rintro (rfl | rfl) <;> exact absurd hcdig (by decide)
    have hcneg : ¬c = '-' := fun hc => hcm (Or.inl hc)
    simp only [if_neg hcm, hd, if_neg hcneg, if_neg (by omega : ¬n ≤ 2 ^ 63 - 1)]

/-- Witness for C10 at the maximum unsigned 64-bit value. -/
theorem flexUInt64_rejects_large_witness :
    digitsToNat "18446744073709551615".data = some 18446744073709551615 ∧
    2 ^ 63 - 1 < 18446744073709551615 ∧
    flexUInt64UnmarshalString "18446744073709551615" = none :=
  ⟨by decide, by decide,
   flexUInt64_rejects_large "18446744073709551615" 18446744073709551615
     (by decide) (by decide)⟩

/-- C7 counterexample: an unadjusted round that carries a miner
passphrase while the configured passphrase is empty (wallet mode on
the miner's own passphrase) produces a pull query WITHOUT the
`deadline` parameter, refuting the Adjusted=false half of the claim. -/
theorem submitQuery_unadjusted_missing_deadline :
    c7Round.adjusted = false ∧
    hasParam (submitQuery cfgP true c7Round) "deadline" = false := by
  decide

/-- C7 amended: an Adjusted round never sends `deadline`; a round whose
effective passphrase (after the configured overwrite) is non-empty
never sends `deadline` either (wallet mode); an unadjusted round with
an empty effective passphrase does send `deadline`. -/
theorem submitQuery_deadline (cfg : Config) (primary : Bool) (r : MinerRound) :
    (r.adjusted = true → hasParam (submitQuery cfg primary r) "deadline" = false) ∧
    ((overwritePassphrase cfg primary r).passphrase ≠ "" →
      hasParam (submitQuery cfg primary r) "deadline" = false) ∧
    (r.adjusted = false → (overwritePassphrase cfg primary r).passphrase = "" →
      hasParam (submitQuery cfg primary r) "deadline" = true) := by
  have hadj : (overwritePassphrase cfg primary r).adjusted = r.adjusted :=
    (overwritePassphrase_fields cfg primary r).2.2.2
  unfold submitQuery
  refine ⟨?_, ?_, ?_⟩
  · intro h
    have h' : (overwritePassphrase cfg primary r).adjusted = true := hadj.trans h
    by_cases hp : (overwritePassphrase cfg primary r).passphrase = "" <;>
      simp [h', hp, queryValues, valuesDel, hasParam]
  · intro hp
    by_cases hb : (overwritePassphrase cfg primary r).adjusted = true <;>
      simp [hb, hp, queryValues, valuesDel, hasParam]
  · intro h hp
    have h' : (overwritePassphrase cfg primary r).adjusted = false := hadj.trans h
    simp [h', hp, queryValues, valuesDel, hasParam]

/-- Witness for C7 amended: an adjusted round omits the parameter and
an unadjusted pool-mode round includes it. -/
theorem submitQuery_deadline_witness :
    hasParam (submitQuery cfgP true rA) "deadline" = false ∧
    hasParam (submitQuery cfgP true ⟨1, 2, 3, 4, "", false⟩) "deadline" = true :=
  ⟨(submitQuery_deadline cfgP true rA).1 (by decide),
   (submitQuery_deadline cfgP true ⟨1, 2, 3, 4, "", false⟩).2.2 (by decide) (by decide)⟩

@[simp] theorem writeBucket_currentPrimChain (st : ChainState) (pc : Bool) (ip : String) (b : Bucket) :
    (writeBucket st pc ip b).currentPrimChain = st.currentPrimChain := by
  unfold writeBucket; split <;> rfl

@[simp] theorem writeBucket_currentHeight (st : ChainState) (pc : Bool) (ip : String) (b : Bucket) :
    (writeBucket st pc ip b).currentHeight = st.currentHeight := by
  unfold writeBucket; split <;> rfl

@[simp] theorem writeBucket_currentBaseTarget (st : ChainState) (pc : Bool) (ip : String) (b : Bucket) :
    (writeBucket st pc ip b).currentBaseTarget = st.currentBaseTarget := by
  unfold writeBucket; split <;> rfl

@[simp] theorem writeBucket_lastPrimChain (st : ChainState) (pc : Bool) (ip : String) (b : Bucket) :
    (writeBucket st pc ip b).lastPrimChain = st.lastPrimChain := by
  unfold writeBucket; split <;> rfl

@[simp] theorem writeBucket_lastHeight (st : ChainState) (pc : Bool) (ip : String) (b : Bucket) :
    (writeBucket st pc ip b).lastHeight = st.lastHeight := by
  unfold writeBucket; split <;> rfl

@[simp] theorem writeBucket_lastBaseTarget (st : ChainState) (pc : Bool) (ip : String) (b : Bucket) :
    (writeBucket st pc ip b).lastBaseTarget = st.lastBaseTarget := by
  unfold writeBucket; split <;> rfl

@[simp] theorem writeBucket_primBest (st : ChainState) (pc : Bool) (ip : String) (b : Bucket) :
    (writeBucket st pc ip b).primBest = st.primBest := by
  unfold writeBucket; split <;> rfl

@[simp] theorem writeBucket_secBest (st : ChainState) (pc : Bool) (ip : String) (b : Bucket) :
    (writeBucket st pc ip b).secBest = st.secBest := by
  unfold writeBucket; split <;> rfl

@[simp] theorem writeBucket_curPrimaryMiningInfo (st : ChainState) (pc : Bool) (ip : String) (b : Bucket) :
    (writeBucket st pc ip b).curPrimaryMiningInfo = st.curPrimaryMiningInfo := by
  unfold writeBucket; split <;> rfl

@[simp] theorem writeBucket_curSecondaryMiningInfo (st : ChainState) (pc : Bool) (ip : String) (b : Bucket) :
    (writeBucket st pc ip b).curSecondaryMiningInfo = st.curSecondaryMiningInfo := by
  unfold writeBucket; split <;> rfl

theorem doUpdate_res (cfg : Config) (st : ChainState) (up : Upstream) (ip : String)
    (r : MinerRound) (pc : Bool) (bt d : Nat) (b : Bucket) :
    (doUpdate cfg st up ip r pc bt d b).res = remoteErr ∨
    (doUpdate cfg st up ip r pc bt d b).res = updated := by
  unfold doUpdate
  cases herr : (proxySubmitRound cfg st up r pc bt).err <;>
    simp [herr, remoteErr, updated]

theorem doUpdate_res_ne_wrongHeight (cfg : Config) (st : ChainState) (up : Upstream)
    (ip : String) (r : MinerRound) (pc : Bool) (bt d : Nat) (b : Bucket) :
    (doUpdate cfg st up ip r pc bt d b).res ≠ wrongHeight := by
  rcases doUpdate_res cfg st up ip r pc bt d b with hd | hd <;>
    rw [hd] <;> simp [remoteErr, updated, wrongHeight]

/-- C3 counterexample: on a concrete failing submission the outcome is
remoteErr and the body written is the flat errorCode envelope, which
does not have the nested error/code object shape the claim states. -/
theorem remoteErr_body_not_nested :
    (tryUpdateRound cfgP stBase .fail "a" rA).res = remoteErr ∧
    (tryUpdateRound cfgP stBase .fail "a" rA).written =
      [.json (formatJSONError 3 "error reaching pool or wallet")] ∧
    ¬hasNestedErrorCode (.json (formatJSONError 3 "error reaching pool or wallet")) 3 := by
  refine ⟨by decide, by rfl, ?_⟩
  rintro ⟨fields, inner, heq, hl, -⟩
  simp only [formatJSONError] at heq
  injection heq with h1
  injection h1 with h2
  subst h2
  simp [lookupField] at hl

theorem doUpdate_err_written (cfg : Config) (st : ChainState) (up : Upstream)
    (ip : String) (r : MinerRound) (pc : Bool) (bt d : Nat) (b : Bucket) :
    (doUpdate cfg st up ip r pc bt d b).res ≠ remoteErr ∨
    (doUpdate cfg st up ip r pc bt d b).written =
      [.json (formatJSONError 3 "error reaching pool or wallet")] := by
  unfold doUpdate
  cases herr : (proxySubmitRound cfg st up r pc bt).err
  · left
    simp [herr, remoteErr, updated]
  · right
    simp only [herr, eq_self_iff_true, if_true]
    exact proxy_err_written _ _ _ _ _ _ herr

set_option maxHeartbeats 1000000 in
theorem tryUpdateRound_err_written (cfg : Config) (st : ChainState) (up : Upstream)
    (ip : String) (r : MinerRound) :
    (tryUpdateRound cfg st up ip r).res ≠ remoteErr ∨
    (tryUpdateRound cfg st up ip r).written =
      [.json (formatJSONError 3 "error reaching pool or wallet")] := by
  unfold tryUpdateRound
  dsimp only
  repeat' split
  all_goals first
    | (left; simp [exceededMinersPerIP, notUpdated, updated, remoteErr, wrongHeight]; done)
    | (right; apply proxy_err_written; assumption)
    | apply doUpdate_err_written

/-- C3 amended: whenever tryUpdateRound returns remoteErr, the body
written to the miner is the flat JSON error envelope built by
formatJSONError with errorCode "3" and description "error reaching
pool or wallet". -/
theorem remoteErr_written (cfg : Config) (st : ChainState) (up : Upstream)
    (ip : String) (r : MinerRound)
    (h : (tryUpdateRound cfg st up ip r).res = remoteErr) :
    (tryUpdateRound cfg st up ip r).written =
      [.json (formatJSONError 3 "error reaching pool or wallet")] := by
  rcases tryUpdateRound_err_written cfg st up ip r with hr | hw
  exacts [absurd h hr, hw]

/-- Witness for C3 amended at a concrete failing submission. -/
theorem remoteErr_written_witness :
    (tryUpdateRound cfgP stBase .fail "b" rB).written =
      [.json (formatJSONError 3 "error reaching pool or wallet")] :=
  remoteErr_written cfgP stBase .fail "b" rB (by decide)

/-- C4: tryUpdateRound returns wrongHeight exactly when the round's
height differs from the current height and the chain flags agree, or
the height is neither the current nor the last height; in particular,
when the last height differs from the current one, a submission at the
last height is wrongHeight under equal flags, and under differing
flags it passes the height gate and is bound to the last chain's flag
and base target. -/
theorem wrongHeight_characterization (cfg : Config) (st : ChainState)
    (up : Upstream) (ip : String) (r : MinerRound) :
    ((tryUpdateRound cfg st up ip r).res = wrongHeight ↔
      (r.height ≠ st.currentHeight ∧ st.currentPrimChain = st.lastPrimChain) ∨
      (r.height ≠ st.currentHeight ∧ r.height ≠ st.lastHeight)) ∧
    (st.lastHeight ≠ st.currentHeight → r.height = st.lastHeight →
      ((st.currentPrimChain = st.lastPrimChain →
         (tryUpdateRound cfg st up ip r).res = wrongHeight) ∧
       (st.currentPrimChain ≠ st.lastPrimChain →
         (tryUpdateRound cfg st up ip r).res ≠ wrongHeight ∧
         bindPrimChain st r.height = st.lastPrimChain ∧
         bindBaseTarget st r.height = st.lastBaseTarget))) := by
  have hiff : (tryUpdateRound cfg st up ip r).res = wrongHeight ↔
      (r.height ≠ st.currentHeight ∧ st.currentPrimChain = st.lastPrimChain) ∨
      (r.height ≠ st.currentHeight ∧ r.height ≠ st.lastHeight) := by
    by_cases h1 : r.height ≠ st.currentHeight ∧ st.currentPrimChain = st.lastPrimChain
    · unfold tryUpdateRound
      rw [if_pos h1]
      simp [h1]
    · by_cases h2 : r.height ≠ st.currentHeight ∧ r.height ≠ st.lastHeight
      · unfold tryUpdateRound
        rw [if_neg h1, if_pos h2]
        simp [h2]
      · have hres : (tryUpdateRound cfg st up ip r).res ≠ wrongHeight := by
          unfold tryUpdateRound
          rw [if_neg h1, if_neg h2]
          dsimp only
          repeat' split
          all_goals first
            | (simp [exceededMinersPerIP, notUpdated, updated, remoteErr, wrongHeight]; done)
            | apply doUpdate_res_ne_wrongHeight
        constructor
        · intro hh
          exact absurd hh hres
        · rintro (hh | hh)
          exacts [absurd hh h1, absurd hh h2]
  refine ⟨hiff, ?_⟩
  intro hne hlast
  have hnc : ¬r.height = st.currentHeight := by
    rw [hlast]
    exact hne
  constructor
  · intro hflag
    exact hiff.mpr (Or.inl ⟨hnc, hflag⟩)
  · intro hflag
    refine ⟨?_, ?_, ?_⟩
    · intro habs
      rcases hiff.mp habs with ⟨-, hf⟩ | ⟨-, hl⟩
      exacts [hflag hf, hl hlast]
    · unfold bindPrimChain
      rw [if_neg hnc]
    · unfold bindBaseTarget
      rw [if_neg hnc]

/-- Witness for C4 at a cross-chain state: last height 9 differs from
current height 10, the flags differ, and a submission at height 9
passes the gate bound to the last chain. -/
theorem wrongHeight_characterization_witness :
    (tryUpdateRound cfgP stCross (.ok "B" none) "a" rLast).res ≠ wrongHeight ∧
    bindPrimChain stCross rLast.height = stCross.lastPrimChain ∧
    bindBaseTarget stCross rLast.height = stCross.lastBaseTarget :=
  ((wrongHeight_characterization cfgP stCross (.ok "B" none) "a" rLast).2
    (by decide) (by decide)).2 (by decide)

theorem doUpdate_best (cfg : Config) (st : ChainState) (up : Upstream)
    (ip : String) (r : MinerRound) (pc : Bool) (bt d : Nat) (b : Bucket) :
    ((doUpdate cfg st up ip r pc bt d b).st.primBest = st.primBest ∨
      (pc = true ∧ (doUpdate cfg st up ip r pc bt d b).st.primBest = d)) ∧
    ((doUpdate cfg st up ip r pc bt d b).st.secBest = st.secBest ∨
      (pc = false ∧ (doUpdate cfg st up ip r pc bt d b).st.secBest = d)) := by
  unfold doUpdate
  dsimp only
  repeat' split
  all_goals simp_all

theorem tryUpdateRound_best_cases (cfg : Config) (st : ChainState) (up : Upstream)
    (ip : String) (r : MinerRound) :
    ((tryUpdateRound cfg st up ip r).st.primBest = st.primBest ∨
      (bindPrimChain st r.height = true ∧
        (tryUpdateRound cfg st up ip r).st.primBest =
          adjDeadline r (bindBaseTarget st r.height))) ∧
    ((tryUpdateRound cfg st up ip r).st.secBest = st.secBest ∨
      (bindPrimChain st r.height = false ∧
        (tryUpdateRound cfg st up ip r).st.secBest =
          adjDeadline r (bindBaseTarget st r.height))) := by
  unfold tryUpdateRound
  dsimp only
  repeat' split
  all_goals first
    | exact ⟨Or.inl rfl, Or.inl rfl⟩
    | exact doUpdate_best _ _ _ _ _ _ _ _ _
    | simp_all

theorem tryUpdateRound_unchanged_of_prim_filter (cfg : Config) (st : ChainState)
    (up : Upstream) (ip : String) (r : MinerRound)
    (hpc : bindPrimChain st r.height = true)
    (hdl : adjDeadline r (bindBaseTarget st r.height) > st.primBest)
    (hflag : cfg.primaryIgnoreWorseDeadlines = true) :
    (tryUpdateRound cfg st up ip r).st = st := by
  unfold tryUpdateRound
  dsimp only
  split
  · rfl
  split
  · rfl
  split
  · rfl
  split
  · rfl
  rw [if_pos (Or.inl ⟨hpc, hdl, hflag⟩)]

theorem tryUpdateRound_unchanged_of_sec_filter (cfg : Config) (st : ChainState)
    (up : Upstream) (ip : String) (r : MinerRound)
    (hpc : bindPrimChain st r.height = false)
    (hdl : adjDeadline r (bindBaseTarget st r.height) > st.secBest)
    (hflag : cfg.secondaryIgnoreWorseDeadlines = true) :
    (tryUpdateRound cfg st up ip r).st = st := by
  unfold tryUpdateRound
  dsimp only
  split
  · rfl
  split
  · rfl
  split
  · rfl
  split
  · rfl
  rw [if_pos (Or.inr ⟨by simp [hpc], hdl, hflag⟩)]

theorem tryUpdateRound_best_mono_step (cfg : Config) (st : ChainState) (up : Upstream)
    (ip : String) (r : MinerRound) :
    (cfg.primaryIgnoreWorseDeadlines = true →
      (tryUpdateRound cfg st up ip r).st.primBest ≤ st.primBest) ∧
    (cfg.secondaryIgnoreWorseDeadlines = true →
      (tryUpdateRound cfg st up ip r).st.secBest ≤ st.secBest) := by
  constructor
  · intro hflag
    rcases (tryUpdateRound_best_cases cfg st up ip r).1 with h | ⟨hpc, h⟩
    · rw [h]
    · by_cases hdl : adjDeadline r (bindBaseTarget st r.height) ≤ st.primBest
      · rw [h]
        exact hdl
      · rw [tryUpdateRound_unchanged_of_prim_filter cfg st up ip r hpc (by omega) hflag]
  · intro hflag
    rcases (tryUpdateRound_best_cases cfg st up ip r).2 with h | ⟨hpc, h⟩
    · rw [h]
    · by_cases hdl : adjDeadline r (bindBaseTarget st r.height) ≤ st.secBest
      · rw [h]
        exact hdl
      · rw [tryUpdateRound_unchanged_of_sec_filter cfg st up ip r hpc (by omega) hflag]

theorem primApply_primBest (mi : MiningInfo) (flush secMidScan : Bool) (st : ChainState) :
    (primApply mi flush secMidScan st).primBest = maxU64 := by
  unfold primApply primChainRotate
  dsimp only
  repeat' split
  all_goals rfl

theorem secNewBlock_secBest (mi : MiningInfo) (st : ChainState) :
    (secNewBlock mi st).secBest = maxU64 := by
  unfold secNewBlock secChainRotate
  dsimp only

theorem secForkBack_secBest (mi : MiningInfo) (st : ChainState) :
    (secForkBack mi st).secBest = maxU64 := by
  unfold secForkBack secChainRotate
  dsimp only

theorem secBaseTargetFork_secBest (mi : MiningInfo) (st : ChainState) :
    (secBaseTargetFork mi st).secBest = maxU64 := by
  unfold secBaseTargetFork secChainRotate
  dsimp only

/-- C2 counterexample: with the primary best-only filter disabled, an
admission from a second ip with a worse deadline is still returned
updated and raises primBest from 5 to 7 with no chain transition in
between, refuting unconditional monotonicity. -/
theorem primBest_increases_without_flag :
    (tryUpdateRound cfgP c2State1 (.ok "B" none) "b" rB).res = updated ∧
    c2State1.primBest = 5 ∧
    (tryUpdateRound cfgP c2State1 (.ok "B" none) "b" rB).st.primBest = 7 := by
  decide

/-- C2 amended: between two block transitions the chain's best counter
is monotonically non-increasing over every admission sequence PROVIDED
the chain's ignoreWorseDeadlines flag is enabled (without it a worse
admitted deadline overwrites the counter upward), and every mutating
transition of a chain resets that chain's counter to the maximum
unsigned 64 value. -/
theorem bestDeadline_monotone_reset :
    (∀ cfg st evs, cfg.primaryIgnoreWorseDeadlines = true →
       (runSeq cfg st evs).primBest ≤ st.primBest) ∧
    (∀ cfg st evs, cfg.secondaryIgnoreWorseDeadlines = true →
       (runSeq cfg st evs).secBest ≤ st.secBest) ∧
    (∀ mi b st, primMutating mi st = true →
       (refreshPrimary mi b st).primBest = maxU64) ∧
    (∀ mi st, secMutating mi st = true →
       (refreshSecondary mi st).secBest = maxU64) := by
  refine ⟨?_, ?_, ?_, ?_⟩
  · intro cfg st evs hflag
    induction evs generalizing st with
    | nil => simp [runSeq]
    | cons e rest ih =>
      obtain ⟨up, ip, r⟩ := e
      simp only [runSeq]
      exact le_trans (ih _) ((tryUpdateRound_best_mono_step cfg st up ip r).1 hflag)
  · intro cfg st evs hflag
    induction evs generalizing st with
    | nil => simp [runSeq]
    | cons e rest ih =>
      obtain ⟨up, ip, r⟩ := e
      simp only [runSeq]
      exact le_trans (ih _) ((tryUpdateRound_best_mono_step cfg st up ip r).2 hflag)
  · intro mi b st hm
    unfold refreshPrimary
    rcases hc : st.curPrimaryMiningInfo with _ | cur
    · exact primApply_primBest _ _ _ _
    · rw [primMutating, hc] at hm
      simp only [bne_iff_ne, Bool.or_eq_true, ne_eq] at hm
      dsimp only
      split
      · exact primApply_primBest _ _ _ _
      split
      · exact primApply_primBest _ _ _ _
      split
      · exact primApply_primBest _ _ _ _
      · rename_i h1 h2 h3
        exfalso
        rcases hm with hm | hm
        · exact hm (by omega)
        · exact hm (not_not.mp h3)
  · intro mi st hm
    unfold refreshSecondary
    rcases hc : st.curSecondaryMiningInfo with _ | cur
    · exact secNewBlock_secBest _ _
    · rw [secMutating, hc] at hm
      simp only [bne_iff_ne, Bool.or_eq_true, ne_eq] at hm
      dsimp only
      split
      · exact secNewBlock_secBest _ _
      split
      · exact secForkBack_secBest _ _
      split
      · exact secBaseTargetFork_secBest _ _
      · rename_i h1 h2 h3
        exfalso
        rcases hm with hm | hm
        · exact hm (by omega)
        · exact hm (not_not.mp h3)

/-- Witness for C2 amended: a one-admission run with the filters on
keeps primBest bounded, and concrete mutating transitions reset the
counters to max. -/
theorem bestDeadline_monotone_reset_witness :
    (runSeq cfgIW stBase [(.ok "B" none, "a", rA)]).primBest ≤ stBase.primBest ∧
    (runSeq cfgIW stBase []).secBest ≤ stBase.secBest ∧
    (refreshPrimary ⟨11, 2, 0, ""⟩ false stBase).primBest = maxU64 ∧
    (refreshSecondary ⟨6, 2, 0, ""⟩ c1State).secBest = maxU64 :=
  ⟨bestDeadline_monotone_reset.1 cfgIW stBase [(.ok "B" none, "a", rA)] (by decide),
   bestDeadline_monotone_reset.2.1 cfgIW stBase [] (by decide),
   bestDeadline_monotone_reset.2.2.1 ⟨11, 2, 0, ""⟩ false stBase (by decide),
   bestDeadline_monotone_reset.2.2.2 ⟨6, 2, 0, ""⟩ c1State (by decide)⟩

theorem bucketLookup_erase_eq_of_none (b : Bucket) (k aID : Nat)
    (h : bucketLookup b aID = none) :
    bucketLookup (bucketErase b k) aID = bucketLookup b aID := by
  rw [h, bucketLookup_erase_of_none _ _ _ h]

theorem storedRound_writeBucket (st : ChainState) (pcb : Bool) (ip : String) (b : Bucket)
    (pc' : Bool) (ip' : String) (aID : Nat) :
    storedRound (writeBucket st pcb ip b) pc' ip' aID =
      if pc' = pcb ∧ ip' = ip then bucketLookup b aID
      else storedRound st pc' ip' aID := by
  unfold storedRound
  cases pcb <;> cases pc' <;> by_cases hip : ip' = ip <;>
    simp_all [writeBucket, cacheLookup_set_self, cacheLookup_set_ne]

theorem doUpdate_err_store (cfg : Config) (st : ChainState) (up : Upstream) (ip : String)
    (r : MinerRound) (pcb : Bool) (bt d : Nat) (b b0 : Bucket) (pc' : Bool) (ip' : String)
    (hcl : cacheLookup (if pcb = true then st.primc else st.secc) ip = some b0)
    (hbb : bucketLookup b r.accountID = bucketLookup b0 r.accountID) :
    (doUpdate cfg st up ip r pcb bt d b).res ≠ remoteErr ∨
    (storedRound (doUpdate cfg st up ip r pcb bt d b).st pc' ip' r.accountID =
        storedRound st pc' ip' r.accountID ∧
     (doUpdate cfg st up ip r pcb bt d b).st.primBest = st.primBest ∧
     (doUpdate cfg st up ip r pcb bt d b).st.secBest = st.secBest) := by
  unfold doUpdate
  cases herr : (proxySubmitRound cfg st up r pcb bt).err
  · left
    simp [herr, remoteErr, updated]
  · right
    simp only [herr, eq_self_iff_true, if_true]
    refine ⟨?_, by simp, by simp⟩
    rw [storedRound_writeBucket]
    split
    case isTrue hc =>
      obtain ⟨hpc, hip⟩ := hc
      subst hpc
      subst hip
      unfold storedRound
      rw [hcl]
      exact hbb
    case isFalse hc => rfl

set_option maxHeartbeats 8000000 in
theorem tryUpdateRound_remoteErr_effect (cfg : Config) (st : ChainState) (up : Upstream)
    (ip : String) (r : MinerRound) (pc' : Bool) (ip' : String) :
    (tryUpdateRound cfg st up ip r).res ≠ remoteErr ∨
    (storedRound (tryUpdateRound cfg st up ip r).st pc' ip' r.accountID =
        storedRound st pc' ip' r.accountID ∧
     (tryUpdateRound cfg st up ip r).st.primBest = st.primBest ∧
     (tryUpdateRound cfg st up ip r).st.secBest = st.secBest) := by
  unfold tryUpdateRound
  dsimp only
  repeat' split
  all_goals first
    | (left; simp [exceededMinersPerIP, notUpdated, updated, remoteErr, wrongHeight]; done)
    | (right; exact ⟨rfl, rfl, rfl⟩)
    | (refine doUpdate_err_store _ _ _ _ _ _ _ _ _ _ _ _ ?_ rfl
       assumption)
    | (refine doUpdate_err_store _ _ _ _ _ _ _ _ _ _ _ _ ?_
        (bucketLookup_erase_eq_of_none _ _ _ ?_) <;> assumption)

/-- C8 counterexample: a remoteErr call on a full bucket still evicts
the lower-height entry of another account before the upstream call
fails, so the engine's state IS changed by that call. -/
theorem remoteErr_evicts_entry :
    (tryUpdateRound cfgM1 c8State .fail "a" rA).res = remoteErr ∧
    storedRound c8State true "a" 200 = some rOld ∧
    storedRound (tryUpdateRound cfgM1 c8State .fail "a" rA).st true "a" 200 = none := by
  decide

/-- C8 amended: whenever tryUpdateRound returns remoteErr, the incoming
round is not stored (the bucket entry for its accountId is unchanged in
both chains' caches) and neither primBest nor secBest is modified;
however, when the failure follows a full bucket's eviction, the evicted
lower-height entry of a different account has already been removed. -/
theorem remoteErr_no_store (cfg : Config) (st : ChainState) (up : Upstream)
    (ip : String) (r : MinerRound)
    (h : (tryUpdateRound cfg st up ip r).res = remoteErr) :
    (∀ pc' ip', storedRound (tryUpdateRound cfg st up ip r).st pc' ip' r.accountID =
        storedRound st pc' ip' r.accountID) ∧
    (tryUpdateRound cfg st up ip r).st.primBest = st.primBest ∧
    (tryUpdateRound cfg st up ip r).st.secBest = st.secBest := by
  refine ⟨fun pc' ip' => ?_, ?_, ?_⟩
  · rcases tryUpdateRound_remoteErr_effect cfg st up ip r pc' ip' with hr | he
    exacts [absurd h hr, he.1]
  · rcases tryUpdateRound_remoteErr_effect cfg st up ip r true ip with hr | he
    exacts [absurd h hr, he.2.1]
  · rcases tryUpdateRound_remoteErr_effect cfg st up ip r true ip with hr | he
    exacts [absurd h hr, he.2.2]

/-- Witness for C8 amended at a concrete failing submission. -/
theorem remoteErr_no_store_witness :
    storedRound (tryUpdateRound cfgM1 c8State .fail "c" rA).st true "c" rA.accountID =
      storedRound c8State true "c" rA.accountID ∧
    (tryUpdateRound cfgM1 c8State .fail "c" rA).st.primBest = c8State.primBest :=
  ⟨(remoteErr_no_store cfgM1 c8State .fail "c" rA (by decide)).1 true "c",
   (remoteErr_no_store cfgM1 c8State .fail "c" rA (by decide)).2.1⟩

theorem bucketLookup_none_iff (b : Bucket) (k : Nat) :
    bucketLookup b k = none ↔ k ∉ b.map Prod.fst := by
  induction b with
  | nil => simp [bucketLookup]
  | cons e rest ih =>
    by_cases he : e.1 = k
    · simp [bucketLookup, he]
    · have hstep : bucketLookup (e :: rest) k = bucketLookup rest k := by
        simp [bucketLookup, he]
      rw [hstep, ih]
      simp only [List.map_cons, List.mem_cons, not_or]
      constructor
      · intro h
        exact ⟨fun hk => he hk.symm, h⟩
      · intro h
        exact h.2

theorem bucketInsert_keys_some (b : Bucket) (k : Nat) (r r₀ : MinerRound)
    (h : bucketLookup b k = some r₀) :
    (bucketInsert b k r).map Prod.fst = b.map Prod.fst := by
  induction b with
  | nil => simp [bucketLookup] at h
  | cons e rest ih =>
    by_cases he : e.1 = k
    · simp [bucketInsert, he]
    · simp only [bucketLookup, he, if_neg] at h
      simp [bucketInsert, he, ih (by simpa [he] using h)]

theorem bucketInsert_keys_none (b : Bucket) (k : Nat) (r : MinerRound)
    (h : bucketLookup b k = none) :
    (bucketInsert b k r).map Prod.fst = b.map Prod.fst ++ [k] := by
  induction b with
  | nil => simp [bucketInsert]
  | cons e rest ih =>
    by_cases he : e.1 = k
    · simp [bucketLookup, he] at h
    · have h2 : bucketLookup rest k = none := by simpa [bucketLookup, he] using h
      simp [bucketInsert, he, ih h2]

theorem bucketInsert_mem (b : Bucket) (k : Nat) (r : MinerRound) (e : Nat × MinerRound)
    (h : e ∈ bucketInsert b k r) : e ∈ b ∨ e = (k, r) := by
  induction b with
  | nil => simpa [bucketInsert] using h
  | cons e0 rest ih =>
    by_cases he : e0.1 = k
    · simp only [bucketInsert, he, if_pos] at h
      rcases List.mem_cons.mp h with h | h
      · right; simpa using h
      · left; exact List.mem_cons_of_mem _ h
    · simp only [bucketInsert, he, if_neg] at h
      rcases List.mem_cons.mp h with h | h
      · left; simp [h]
      · rcases ih h with h | h
        · left; exact List.mem_cons_of_mem _ h
        · right; exact h

theorem bucketInsert_length_some (b : Bucket) (k : Nat) (r r₀ : MinerRound)
    (h : bucketLookup b k = some r₀) :
    (bucketInsert b k r).length = b.length := by
  have := bucketInsert_keys_some b k r r₀ h
  have h1 : ((bucketInsert b k r).map Prod.fst).length = (b.map Prod.fst).length := by
    rw [this]
  simpa using h1

theorem bucketInsert_length_none (b : Bucket) (k : Nat) (r : MinerRound)
    (h : bucketLookup b k = none) :
    (bucketInsert b k r).length = b.length + 1 := by
  have := bucketInsert_keys_none b k r h
  have h1 : ((bucketInsert b k r).map Prod.fst).length = (b.map Prod.fst).length + 1 := by
    rw [this]
    simp
  simpa using h1

theorem bucketErase_mem (b : Bucket) (k : Nat) (e : Nat × MinerRound)
    (h : e ∈ bucketErase b k) : e ∈ b := by
  induction b with
  | nil => simpa [bucketErase] using h
  | cons e0 rest ih =>
    by_cases he : e0.1 = k
    · simp only [bucketErase, he, if_pos] at h
      exact List.mem_cons_of_mem _ h
    · simp only [bucketErase, he, if_neg] at h
      rcases List.mem_cons.mp h with h | h
      · simp [h]
      · exact List.mem_cons_of_mem _ (ih h)

theorem bucketErase_keys_sublist (b : Bucket) (k : Nat) :
    ((bucketErase b k).map Prod.fst).Sublist (b.map Prod.fst) := by
  induction b with
  | nil => simp [bucketErase]
  | cons e rest ih =>
    by_cases he : e.1 = k
    · simp only [bucketErase, he, if_pos, List.map_cons]
      exact (List.sublist_cons_self _ _)
    · simp only [bucketErase, he, if_neg, List.map_cons]
      exact List.Sublist.cons₂ _ ih

theorem bucketErase_length_some (b : Bucket) (k : Nat) (r₀ : MinerRound)
    (h : bucketLookup b k = some r₀) :
    (bucketErase b k).length + 1 = b.length := by
  induction b with
  | nil => simp [bucketLookup] at h
  | cons e rest ih =>
    by_cases he : e.1 = k
    · simp [bucketErase, he]
    · have h2 : bucketLookup rest k = some r₀ := by simpa [bucketLookup, he] using h
      simp [bucketErase, he, ih h2]

theorem bucketLookup_of_mem (b : Bucket) (e : Nat × MinerRound) (h : e ∈ b) :
    ∃ r₀, bucketLookup b e.1 = some r₀ := by
  induction b with
  | nil => simp at h
  | cons e0 rest ih =>
    by_cases he : e0.1 = e.1
    · exact ⟨e0.2, by simp [bucketLookup, he]⟩
    · rcases List.mem_cons.mp h with h | h
      · exact absurd (congrArg Prod.fst h).symm he
      · rcases ih h with ⟨r₀, hr⟩
        exact ⟨r₀, by simp [bucketLookup, he, hr]⟩

theorem bucketWF_insert (m : Nat) (b : Bucket) (k : Nat) (r : MinerRound)
    (hwf : bucketWF m b) (hacc : r.accountID = k)
    (hroom : bucketLookup b k = none → b.length < m) :
    bucketWF m (bucketInsert b k r) := by
  obtain ⟨hnd, hfld, hlen⟩ := hwf
  rcases hl : bucketLookup b k with _ | r₀
  · refine ⟨?_, ?_, ?_⟩
    · rw [bucketInsert_keys_none b k r hl]
      simp only [List.nodup_append, List.nodup_cons, List.nodup_nil]
      exact ⟨hnd, by simp, by simpa using (bucketLookup_none_iff b k).mp hl⟩
    · intro e he
      rcases bucketInsert_mem b k r e he with he | he
      · exact hfld e he
      · rw [he]
        exact hacc
    · rw [bucketInsert_length_none b k r hl]
      have := hroom hl
      omega
  · refine ⟨?_, ?_, ?_⟩
    · rw [bucketInsert_keys_some b k r r₀ hl]
      exact hnd
    · intro e he
      rcases bucketInsert_mem b k r e he with he | he
      · exact hfld e he
      · rw [he]
        exact hacc
    · rw [bucketInsert_length_some b k r r₀ hl]
      exact hlen

theorem bucketWF_erase (m : Nat) (b : Bucket) (k : Nat) (hwf : bucketWF m b) :
    bucketWF m (bucketErase b k) := by
  obtain ⟨hnd, hfld, hlen⟩ := hwf
  refine ⟨(bucketErase_keys_sublist b k).nodup hnd, ?_, ?_⟩
  · intro e he
    exact hfld e (bucketErase_mem b k e he)
  · have h1 := (bucketErase_keys_sublist b k).length_le
    simp only [List.length_map] at h1
    omega

theorem bucketWF_singleton (m : Nat) (k : Nat) (r : MinerRound)
    (hm : 1 ≤ m) (hacc : r.accountID = k) : bucketWF m [(k, r)] := by
  refine ⟨by simp, ?_, by simpa using hm⟩
  intro e he
  simp only [List.mem_singleton] at he
  rw [he]
  exact hacc

theorem cacheSet_mem (c : Cache) (ip : String) (b : Bucket) (e : String × Bucket)
    (h : e ∈ cacheSet c ip b) : e ∈ c ∨ e = (ip, b) := by
  induction c with
  | nil => simpa [cacheSet] using h
  | cons e0 rest ih =>
    by_cases he : e0.1 = ip
    · simp only [cacheSet, he, if_pos] at h
      rcases List.mem_cons.mp h with h | h
      · right; simpa using h
      · left; exact List.mem_cons_of_mem _ h
    · simp only [cacheSet, he, if_neg] at h
      rcases List.mem_cons.mp h with h | h
      · left; simp [h]
      · rcases ih h with h | h
        · left; exact List.mem_cons_of_mem _ h
        · right; exact h

theorem cacheWF_set (m : Nat) (c : Cache) (ip : String) (b : Bucket)
    (hc : cacheWF m c) (hb : bucketWF m b) : cacheWF m (cacheSet c ip b) := by
  intro e he
  rcases cacheSet_mem c ip b e he with he | he
  · exact hc e he
  · rw [he]
    exact hb

theorem cacheWF_lookup (m : Nat) (c : Cache) (ip : String) (b : Bucket)
    (hc : cacheWF m c) (h : cacheLookup c ip = some b) : bucketWF m b := by
  induction c with
  | nil => simp [cacheLookup] at h
  | cons e rest ih =>
    by_cases he : e.1 = ip
    · have hb : e.2 = b := by simpa [cacheLookup, he] using h
      rw [← hb]
      exact hc e (by simp)
    · exact ih (fun e' he' => hc e' (List.mem_cons_of_mem _ he'))
        (by simpa [cacheLookup, he] using h)

theorem stateWF_mk (m : Nat) (st : ChainState)
    (h1 : cacheWF m st.primc) (h2 : cacheWF m st.secc) : stateWF m st := ⟨h1, h2⟩

theorem writeBucket_primc (st : ChainState) (pc : Bool) (ip : String) (b : Bucket) :
    (writeBucket st pc ip b).primc =
      if pc = true then cacheSet st.primc ip b else st.primc := by
  unfold writeBucket
  split <;> rename_i h <;> simp [h]

theorem writeBucket_secc (st : ChainState) (pc : Bool) (ip : String) (b : Bucket) :
    (writeBucket st pc ip b).secc =
      if pc = true then st.secc else cacheSet st.secc ip b := by
  unfold writeBucket
  split <;> rename_i h <;> simp [h]

theorem stateWF_writeBucket (m : Nat) (st : ChainState) (pc : Bool) (ip : String)
    (b : Bucket) (hst : stateWF m st) (hb : bucketWF m b) :
    stateWF m (writeBucket st pc ip b) := by
  refine stateWF_mk _ _ ?_ ?_
  · rw [writeBucket_primc]
    split
    · exact cacheWF_set _ _ _ _ hst.1 hb
    · exact hst.1
  · rw [writeBucket_secc]
    split
    · exact hst.2
    · exact cacheWF_set _ _ _ _ hst.2 hb

theorem doUpdate_stateWF (cfg : Config) (st : ChainState) (up : Upstream) (ip : String)
    (r : MinerRound) (pcb : Bool) (bt d : Nat) (b : Bucket)
    (hwf : stateWF cfg.minersPerIP st)
    (hb : bucketWF cfg.minersPerIP b)
    (hroom : bucketLookup b r.accountID = none → b.length < cfg.minersPerIP) :
    stateWF cfg.minersPerIP (doUpdate cfg st up ip r pcb bt d b).st := by
  unfold doUpdate
  cases herr : (proxySubmitRound cfg st up r pcb bt).err
  · rw [if_neg (by simp [herr])]
    have hbi : bucketWF cfg.minersPerIP
        (bucketInsert b r.accountID (proxySubmitRound cfg st up r pcb bt).round) :=
      bucketWF_insert _ _ _ _ hb (proxy_round_fields cfg st up r pcb bt).1 hroom
    dsimp only
    split <;> split <;> exact stateWF_writeBucket _ _ _ _ _ hwf hbi
  · rw [if_pos herr]
    exact stateWF_writeBucket _ _ _ _ _ hwf hb

theorem doUpdate_res_ne_exceeded (cfg : Config) (st : ChainState) (up : Upstream)
    (ip : String) (r : MinerRound) (pc : Bool) (bt d : Nat) (b : Bucket) :
    (doUpdate cfg st up ip r pc bt d b).res ≠ exceededMinersPerIP := by
  rcases doUpdate_res cfg st up ip r pc bt d b with hd | hd <;>
    rw [hd] <;> simp [remoteErr, updated, exceededMinersPerIP]

theorem tryUpdateRound_exceeded_unchanged (cfg : Config) (st : ChainState) (up : Upstream)
    (ip : String) (r : MinerRound) :
    (tryUpdateRound cfg st up ip r).res ≠ exceededMinersPerIP ∨
    (tryUpdateRound cfg st up ip r).st = st := by
  unfold tryUpdateRound
  dsimp only
  repeat' split
  all_goals first
    | (right; rfl)
    | (left; simp [exceededMinersPerIP, notUpdated, updated, remoteErr, wrongHeight]; done)
    | (left; apply doUpdate_res_ne_exceeded)

set_option maxHeartbeats 2000000 in
/-- C6: under a configured minersPerIP of at least one, the invariant
that every IPBucket holds at most minersPerIP well-keyed entries is
preserved by every tryUpdateRound call (new buckets have one entry, a
full bucket only admits a new accountId after evicting a lower-height
round), and an exceededMinersPerIP outcome leaves the state untouched
(the bucket is not enlarged). -/
theorem minersPerIP_bound (cfg : Config) (st : ChainState) (up : Upstream)
    (ip : String) (r : MinerRound) (hm : 1 ≤ cfg.minersPerIP)
    (hwf : stateWF cfg.minersPerIP st) :
    stateWF cfg.minersPerIP (tryUpdateRound cfg st up ip r).st ∧
    ((tryUpdateRound cfg st up ip r).res = exceededMinersPerIP →
      (tryUpdateRound cfg st up ip r).st = st) := by
  constructor
  · unfold tryUpdateRound
    dsimp only
    split
    · exact hwf
    split
    · exact hwf
    split
    · exact hwf
    split
    · exact hwf
    split
    · exact hwf
    have hcw : cacheWF cfg.minersPerIP
        (if bindPrimChain st r.height = true then st.primc else st.secc) := by
      split
      · exact hwf.1
      · exact hwf.2
    split
    · split
      · exact hwf
      · have hb1 : bucketWF cfg.minersPerIP
            [(r.accountID, (proxySubmitRound cfg st up r (bindPrimChain st r.height)
              (bindBaseTarget st r.height)).round)] :=
          bucketWF_singleton _ _ _ hm (proxy_round_fields _ _ _ _ _ _).1
        dsimp only
        split <;> split <;> exact stateWF_writeBucket _ _ _ _ _ hwf hb1
    · rename_i b heq
      have hbwf : bucketWF cfg.minersPerIP b := cacheWF_lookup _ _ _ _ hcw heq
      split
      · rename_i hbl
        split
        · rename_i hfull
          split
          · rename_i other hfind
            refine doUpdate_stateWF _ _ _ _ _ _ _ _ _ hwf (bucketWF_erase _ _ _ hbwf) ?_
            intro _
            have hmem : other ∈ b := List.mem_of_find?_eq_some hfind
            have hkey : other.2.accountID = other.1 := hbwf.2.1 other hmem
            obtain ⟨r₀, hr₀⟩ := bucketLookup_of_mem b other hmem
            have hlen := bucketErase_length_some b other.1 r₀ hr₀
            rw [hkey]
            omega
          · exact hwf
        · rename_i hfull
          refine doUpdate_stateWF _ _ _ _ _ _ _ _ _ hwf hbwf ?_
          intro _
          have hle := hbwf.2.2
          omega
      · rename_i er hbl
        split
        · exact hwf
        · refine doUpdate_stateWF _ _ _ _ _ _ _ _ _ hwf hbwf ?_
          intro hnone
          rw [hbl] at hnone
          simp at hnone
  · intro habs
    rcases tryUpdateRound_exceeded_unchanged cfg st up ip r with h | h
    exacts [absurd habs h, h]

/-- Witness for C6 at the baseline empty-cache state. -/
theorem minersPerIP_bound_witness :
    stateWF cfgP.minersPerIP (tryUpdateRound cfgP stBase (.ok "B" none) "a" rA).st :=
  (minersPerIP_bound cfgP stBase (.ok "B" none) "a" rA (by decide)
    (by constructor <;> intro e he <;> simp [stBase] at he)).1

@[simp] theorem storedRound_set_primBest (st : ChainState) (d : Nat) (pc : Bool)
    (ip : String) (a : Nat) :
    storedRound { st with primBest := d } pc ip a = storedRound st pc ip a := rfl

@[simp] theorem storedRound_set_secBest (st : ChainState) (d : Nat) (pc : Bool)
    (ip : String) (a : Nat) :
    storedRound { st with secBest := d } pc ip a = storedRound st pc ip a := rfl

@[simp] theorem storedRound_set_liars (st : ChainState) (l : List String) (pc : Bool)
    (ip : String) (a : Nat) :
    storedRound { st with liars := l } pc ip a = storedRound st pc ip a := rfl

@[simp] theorem storedRound_set_primBest_liars (st : ChainState) (d : Nat)
    (l : List String) (pc : Bool) (ip : String) (a : Nat) :
    storedRound { st with primBest := d, liars := l } pc ip a = storedRound st pc ip a := rfl

@[simp] theorem storedRound_set_secBest_liars (st : ChainState) (d : Nat)
    (l : List String) (pc : Bool) (ip : String) (a : Nat) :
    storedRound { st with secBest := d, liars := l } pc ip a = storedRound st pc ip a := rfl

theorem doUpdate_scalars (cfg : Config) (st : ChainState) (up : Upstream) (ip : String)
    (r : MinerRound) (pcb : Bool) (bt d : Nat) (b : Bucket) :
    (doUpdate cfg st up ip r pcb bt d b).st.currentPrimChain = st.currentPrimChain ∧
    (doUpdate cfg st up ip r pcb bt d b).st.currentHeight = st.currentHeight ∧
    (doUpdate cfg st up ip r pcb bt d b).st.currentBaseTarget = st.currentBaseTarget ∧
    (doUpdate cfg st up ip r pcb bt d b).st.lastPrimChain = st.lastPrimChain ∧
    (doUpdate cfg st up ip r pcb bt d b).st.lastBaseTarget = st.lastBaseTarget := by
  unfold doUpdate
  cases herr : (proxySubmitRound cfg st up r pcb bt).err
  · rw [if_neg (by simp [herr])]
    dsimp only
    split <;> split <;> exact ⟨by simp, by simp, by simp, by simp, by simp⟩
  · rw [if_pos herr]
    exact ⟨by simp, by simp, by simp, by simp, by simp⟩

set_option maxHeartbeats 1000000 in
theorem tryUpdateRound_scalars (cfg : Config) (st : ChainState) (up : Upstream)
    (ip : String) (r : MinerRound) :
    (tryUpdateRound cfg st up ip r).st.currentPrimChain = st.currentPrimChain ∧
    (tryUpdateRound cfg st up ip r).st.currentHeight = st.currentHeight ∧
    (tryUpdateRound cfg st up ip r).st.currentBaseTarget = st.currentBaseTarget ∧
    (tryUpdateRound cfg st up ip r).st.lastPrimChain = st.lastPrimChain ∧
    (tryUpdateRound cfg st up ip r).st.lastBaseTarget = st.lastBaseTarget := by
  unfold tryUpdateRound
  dsimp only
  repeat' split
  all_goals first
    | exact ⟨rfl, rfl, rfl, rfl, rfl⟩
    | exact doUpdate_scalars _ _ _ _ _ _ _ _ _
    | exact ⟨by simp, by simp, by simp, by simp, by simp⟩

theorem tryUpdateRound_bind_eq (cfg : Config) (st : ChainState) (up : Upstream)
    (ip : String) (r : MinerRound) (h : Nat) :
    bindPrimChain (tryUpdateRound cfg st up ip r).st h = bindPrimChain st h ∧
    bindBaseTarget (tryUpdateRound cfg st up ip r).st h = bindBaseTarget st h := by
  obtain ⟨h1, h2, h3, h4, h5⟩ := tryUpdateRound_scalars cfg st up ip r
  unfold bindPrimChain bindBaseTarget
  rw [h1, h2, h3, h4, h5]
  exact ⟨rfl, rfl⟩

theorem doUpdate_entry_cases (cfg : Config) (st : ChainState) (up : Upstream) (ip : String)
    (r : MinerRound) (pcb : Bool) (bt d : Nat) (b b0 : Bucket) (pc' : Bool) (ip' : String)
    (hcl : cacheLookup (if pcb = true then st.primc else st.secc) ip = some b0)
    (hbb : bucketLookup b r.accountID = bucketLookup b0 r.accountID) :
    (doUpdate cfg st up ip r pcb bt d b).res = updated ∨
    storedRound (doUpdate cfg st up ip r pcb bt d b).st pc' ip' r.accountID =
      storedRound st pc' ip' r.accountID := by
  rcases doUpdate_res cfg st up ip r pcb bt d b with hd | hd
  · rcases doUpdate_err_store cfg st up ip r pcb bt d b b0 pc' ip' hcl hbb with h | h
    · exact absurd hd h
    · exact Or.inr h.1
  · exact Or.inl hd

set_option maxHeartbeats 8000000 in
theorem tryUpdateRound_entry_cases (cfg : Config) (st : ChainState) (up : Upstream)
    (ip : String) (r : MinerRound) (pc' : Bool) (ip' : String) :
    (tryUpdateRound cfg st up ip r).res = updated ∨
    storedRound (tryUpdateRound cfg st up ip r).st pc' ip' r.accountID =
      storedRound st pc' ip' r.accountID := by
  unfold tryUpdateRound
  dsimp only
  repeat' split
  all_goals first
    | (left; rfl)
    | (right; rfl)
    | (refine doUpdate_entry_cases _ _ _ _ _ _ _ _ _ _ _ _ ?_ rfl
       assumption)
    | (refine doUpdate_entry_cases _ _ _ _ _ _ _ _ _ _ _ _ ?_
        (bucketLookup_erase_eq_of_none _ _ _ ?_) <;> assumption)

theorem bucketLookup_singleton (k : Nat) (r : MinerRound) :
    bucketLookup [(k, r)] k = some r := by
  simp [bucketLookup]

theorem doUpdate_updated_entry (cfg : Config) (st : ChainState) (up : Upstream)
    (ip : String) (r : MinerRound) (pcb : Bool) (bt d : Nat) (b : Bucket) :
    (doUpdate cfg st up ip r pcb bt d b).res ≠ updated ∨
    storedRound (doUpdate cfg st up ip r pcb bt d b).st pcb ip r.accountID =
      some (proxySubmitRound cfg st up r pcb bt).round := by
  unfold doUpdate
  cases herr : (proxySubmitRound cfg st up r pcb bt).err
  · rw [if_neg (by simp [herr])]
    right
    dsimp only
    split <;> split <;>
      (simp only [storedRound_set_primBest, storedRound_set_secBest, storedRound_set_liars,
          storedRound_set_primBest_liars, storedRound_set_secBest_liars,
          storedRound_writeBucket, eq_self_iff_true, and_self, if_true]
       exact bucketLookup_insert_self _ _ _)
  · rw [if_pos herr]
    left
    simp [remoteErr, updated]

set_option maxHeartbeats 8000000 in
theorem tryUpdateRound_updated_entry (cfg : Config) (st : ChainState) (up : Upstream)
    (ip : String) (r : MinerRound) :
    (tryUpdateRound cfg st up ip r).res ≠ updated ∨
    storedRound (tryUpdateRound cfg st up ip r).st (bindPrimChain st r.height) ip
        r.accountID =
      some (proxySubmitRound cfg st up r (bindPrimChain st r.height)
        (bindBaseTarget st r.height)).round := by
  unfold tryUpdateRound
  dsimp only
  repeat' split
  all_goals first
    | (left; simp [exceededMinersPerIP, notUpdated, remoteErr, wrongHeight, updated]; done)
    | (right
       simp only [storedRound_set_primBest, storedRound_set_secBest, storedRound_set_liars,
         storedRound_set_primBest_liars, storedRound_set_secBest_liars,
         storedRound_writeBucket, eq_self_iff_true, and_self, if_true]
       exact bucketLookup_singleton _ _)
    | exact doUpdate_updated_entry _ _ _ _ _ _ _ _ _

set_option maxHeartbeats 8000000 in
theorem tryUpdateRound_updated_le (cfg : Config) (st : ChainState) (up : Upstream)
    (ip : String) (r : MinerRound) (e₁ : MinerRound)
    (he : storedRound st (bindPrimChain st r.height) ip r.accountID = some e₁)
    (hh : e₁.height = r.height) :
    (tryUpdateRound cfg st up ip r).res ≠ updated ∨
    adjDeadline r (bindBaseTarget st r.height) ≤
      adjDeadline e₁ (bindBaseTarget st r.height) := by
  unfold tryUpdateRound
  dsimp only
  repeat' split
  all_goals first
    | (left; simp [exceededMinersPerIP, notUpdated, remoteErr, wrongHeight, updated]; done)
    | (exfalso; unfold storedRound at he; simp_all; done)
    | (right; unfold storedRound at he; simp_all; try omega)

theorem minList_cons_le (x : Nat) (l : List Nat) : minList (x :: l) ≤ x := by
  cases l with
  | nil => simp [minList]
  | cons y rest =>
    rw [show minList (x :: y :: rest) = min x (minList (y :: rest)) from rfl]
    exact min_le_left _ _

theorem minList_le (l : List Nat) (x : Nat) (hne : l ≠ []) (h : ∀ d ∈ l, d ≤ x) :
    minList l ≤ x := by
  cases l with
  | nil => exact absurd rfl hne
  | cons y rest => exact le_trans (minList_cons_le y rest) (h y (by simp))

theorem minList_cons_eq (x : Nat) (l : List Nat) (hne : l ≠ []) (h : minList l ≤ x) :
    minList (x :: l) = minList l := by
  cases l with
  | nil => exact absurd rfl hne
  | cons y rest =>
    rw [show minList (x :: y :: rest) = min x (minList (y :: rest)) from rfl]
    exact min_eq_right h

theorem seq_aux (cfg : Config) (ip : String) (aID H : Nat) :
    ∀ (evs : List Event) (st : ChainState),
      (∀ e ∈ evs, e.2.1 = ip ∧ e.2.2.accountID = aID ∧ e.2.2.height = H) →
      ((admittedDeadlines cfg st evs = [] →
          storedRound (runSeq cfg st evs) (bindPrimChain st H) ip aID =
            storedRound st (bindPrimChain st H) ip aID) ∧
       (admittedDeadlines cfg st evs ≠ [] →
          ∃ r', storedRound (runSeq cfg st evs) (bindPrimChain st H) ip aID = some r' ∧
            r'.height = H ∧
            adjDeadline r' (bindBaseTarget st H) =
              minList (admittedDeadlines cfg st evs)) ∧
       (∀ e₁, storedRound st (bindPrimChain st H) ip aID = some e₁ → e₁.height = H →
          ∀ d ∈ admittedDeadlines cfg st evs,
            d ≤ adjDeadline e₁ (bindBaseTarget st H))) := by
  intro evs
  induction evs with
  | nil =>
    intro st _
    refine ⟨fun _ => rfl, fun hne => absurd rfl hne, ?_⟩
    intro e₁ _ _ d hd
    simp [admittedDeadlines] at hd
  | cons e rest ih =>
    intro st hevs
    obtain ⟨up, ip₀, r⟩ := e
    obtain ⟨hip, ha, hh⟩ := hevs (up, ip₀, r) (by simp)
    subst hip
    have hrest : ∀ e ∈ rest, e.2.1 = ip₀ ∧ e.2.2.accountID = aID ∧ e.2.2.height = H :=
      fun e he => hevs e (List.mem_cons_of_mem _ he)
    have hbind := tryUpdateRound_bind_eq cfg st up ip₀ r H
    have hrun : runSeq cfg st ((up, ip₀, r) :: rest) =
        runSeq cfg (tryUpdateRound cfg st up ip₀ r).st rest := rfl
    have hds : admittedDeadlines cfg st ((up, ip₀, r) :: rest) =
        (if (tryUpdateRound cfg st up ip₀ r).res = updated then
          adjDeadline r (bindBaseTarget st r.height) ::
            admittedDeadlines cfg (tryUpdateRound cfg st up ip₀ r).st rest
        else admittedDeadlines cfg (tryUpdateRound cfg st up ip₀ r).st rest) := rfl
    have IH := ih (tryUpdateRound cfg st up ip₀ r).st hrest
    rw [hbind.1, hbind.2] at IH
    by_cases hres : (tryUpdateRound cfg st up ip₀ r).res = updated
    · rcases tryUpdateRound_updated_entry cfg st up ip₀ r with hF2 | hF2
      · exact absurd hres hF2
      rw [hh, ha] at hF2
      have hs₀h : (proxySubmitRound cfg st up r (bindPrimChain st H)
          (bindBaseTarget st H)).round.height = H := by
        rw [(proxy_round_fields _ _ _ _ _ _).2.1]
        exact hh
      have hs₀d : adjDeadline (proxySubmitRound cfg st up r (bindPrimChain st H)
            (bindBaseTarget st H)).round (bindBaseTarget st H) =
          adjDeadline r (bindBaseTarget st H) :=
        proxy_adjDeadline _ _ _ _ _ _ _
      have hds2 : admittedDeadlines cfg st ((up, ip₀, r) :: rest) =
          adjDeadline r (bindBaseTarget st H) ::
            admittedDeadlines cfg (tryUpdateRound cfg st up ip₀ r).st rest := by
        rw [hds, if_pos hres, hh]
      refine ⟨?_, ?_, ?_⟩
      · intro habs
        rw [hds2] at habs
        simp at habs
      · intro _
        by_cases hd' : admittedDeadlines cfg (tryUpdateRound cfg st up ip₀ r).st rest = []
        · have hend := IH.1 hd'
          refine ⟨_, ?_, hs₀h, ?_⟩
          · rw [hrun, hend]
            exact hF2
          · rw [hds2, hd', hs₀d]
            rfl
        · obtain ⟨r'', hr1, hr2, hr3⟩ := IH.2.1 hd'
          have hle : ∀ d ∈ admittedDeadlines cfg (tryUpdateRound cfg st up ip₀ r).st rest,
              d ≤ adjDeadline r (bindBaseTarget st H) := by
            intro d hd
            have h1 := IH.2.2 _ hF2 hs₀h d hd
            rw [hs₀d] at h1
            exact h1
          have hmle := minList_le _ _ hd' hle
          refine ⟨r'', ?_, hr2, ?_⟩
          · rw [hrun]
            exact hr1
          · rw [hds2, minList_cons_eq _ _ hd' hmle]
            exact hr3
      · intro e₁ he₁ hhe₁ d hd
        have he' : storedRound st (bindPrimChain st r.height) ip₀ r.accountID = some e₁ := by
          rw [hh, ha]
          exact he₁
        have hh' : e₁.height = r.height := by
          rw [hh]
          exact hhe₁
        rcases tryUpdateRound_updated_le cfg st up ip₀ r e₁ he' hh' with hF3 | hF3
        · exact absurd hres hF3
        rw [hh] at hF3
        rw [hds2] at hd
        rcases List.mem_cons.mp hd with hd | hd
        · rw [hd]
          exact hF3
        · have h1 := IH.2.2 _ hF2 hs₀h d hd
          rw [hs₀d] at h1
          exact le_trans h1 hF3
    · rcases tryUpdateRound_entry_cases cfg st up ip₀ r (bindPrimChain st H) ip₀ with h | hpres
      · exact absurd h hres
      rw [ha] at hpres
      have hds2 : admittedDeadlines cfg st ((up, ip₀, r) :: rest) =
          admittedDeadlines cfg (tryUpdateRound cfg st up ip₀ r).st rest := by
        rw [hds, if_neg hres]
      refine ⟨?_, ?_, ?_⟩
      · intro h0
        rw [hds2] at h0
        rw [hrun, IH.1 h0, hpres]
      · intro hne
        rw [hds2] at hne
        obtain ⟨r'', h1, h2, h3⟩ := IH.2.1 hne
        refine ⟨r'', ?_, h2, ?_⟩
        · rw [hrun]
          exact h1
        · rw [hds2]
          exact h3
      · intro e₁ he₁ hhe₁ d hd
        rw [hds2] at hd
        refine IH.2.2 e₁ ?_ hhe₁ d hd
        rw [hpres]
        exact he₁

/-- C5: for every sequence of admissions carrying the same ip and
accountId at a fixed height (hence a fixed chain binding and base
target, which tryUpdateRound never changes), whenever at least one call
has returned updated, the MinerRound stored in the bucket under that
accountId has an adjusted deadline equal to the minimum of the adjusted
deadlines of all submissions admitted so far. -/
theorem stored_is_min_admitted (cfg : Config) (ip : String) (aID H : Nat)
    (evs : List Event) (st : ChainState)
    (hevs : ∀ e ∈ evs, e.2.1 = ip ∧ e.2.2.accountID = aID ∧ e.2.2.height = H)
    (hne : admittedDeadlines cfg st evs ≠ []) :
    ∃ r', storedRound (runSeq cfg st evs) (bindPrimChain st H) ip aID = some r' ∧
      adjDeadline r' (bindBaseTarget st H) = minList (admittedDeadlines cfg st evs) := by
  obtain ⟨r', h1, _, h3⟩ := (seq_aux cfg ip aID H evs st hevs).2.1 hne
  exact ⟨r', h1, h3⟩

/-- Witness for C5: two admissions (deadlines 5 then 4) from the same
ip and account at height 10 leave a stored round whose adjusted
deadline is the minimum 4. -/
theorem stored_is_min_admitted_witness :
    ∃ r', storedRound
        (runSeq cfgP stBase [(.ok "B" none, "a", rA), (.ok "B" none, "a", rD)])
        (bindPrimChain stBase 10) "a" 100 = some r' ∧
      adjDeadline r' (bindBaseTarget stBase 10) =
        minList (admittedDeadlines cfgP stBase
          [(.ok "B" none, "a", rA), (.ok "B" none, "a", rD)]) :=
  stored_is_min_admitted cfgP "a" 100 10
    [(.ok "B" none, "a", rA), (.ok "B" none, "a", rD)] stBase (by decide) (by decide)

end Aggregator
